import Mathlib

/-
Verification development for the WordSenseDisambiguation repository.

This file gives a shallow embedding of the ambiguity-scoring and
recommendation core of the repository:

  * src/backend/ambiguity/detector/similarity.py   (SimilarityScorer)
  * src/backend/ambiguity/detector/detector.py     (AmbiguityDetector)
  * src/backend/ambiguity/recommendations/recommender.py (Recommender)
  * src/backend/ambiguity/ner_utils.py             (named-entity filter)

Modelling conventions:
  * Python floats are modelled by rationals.  Square roots (np.sqrt and
    the norms hidden inside sklearn cosine_similarity) are modelled by an
    abstract function `sqrtQ : Rat -> Rat` threaded through the defs; all
    claims proved here are independent of the concrete square root.
  * The external providers (the BERT embedding model behind
    model_manager.get_embedding, the RoWordNet synset inventory, and the
    spaCy named-entity recogniser) are parameters of the detector record.
    A provider call that raises is modelled by `Except Err`.
  * Python str.lower / str.capitalize are modelled character-wise
    (ASCII, exactly like Char.toLower / Char.toUpper).
  * Python dicts built from (token, pos) pairs are modelled by
    last-binding-wins association lookup on the raw pair list.
-/

/-! ## String helpers (Python string primitives) -/

/-- Python s.lower(): lower-case every character. -/
def lowerStr (s : String) : String := String.mk (s.data.map Char.toLower)

/-- Python s.capitalize(): first character upper-cased, rest lower-cased. -/
def pyCapitalize (s : String) : String :=
  match s.data with
  | [] => ""
  | c :: rest => String.mk (c.toUpper :: rest.map Char.toLower)

/-- Python sep.join(xs). -/
def pyJoin (sep : String) : List String → String
  | [] => ""
  | [x] => x
  | x :: y :: xs => x ++ sep ++ pyJoin sep (y :: xs)

/-- Python s.startswith(p). -/
def pyStartsWith (s p : String) : Bool := p.data.isPrefixOf s.data

/-! ## Error taxonomy (section 7 of the spec) -/

/-- Failures surfaced by the providers and by the similarity layer. -/
inductive Err : Type where
  | invalidInput : Err
  | notFound : Err
  | providerUnavailable : Err
  | embeddingFailed : Err
deriving DecidableEq

instance instDecEqExcept {ε α : Type} [DecidableEq ε] [DecidableEq α] :
    DecidableEq (Except ε α) := fun a b =>
  match a, b with
  | .error e, .error f =>
    if h : e = f then isTrue (by rw [h]) else isFalse (fun hc => by cases hc; exact h rfl)
  | .error _, .ok _ => isFalse (fun hc => by cases hc)
  | .ok _, .error _ => isFalse (fun hc => by cases hc)
  | .ok x, .ok y =>
    if h : x = y then isTrue (by rw [h]) else isFalse (fun hc => by cases hc; exact h rfl)

/-! ## Data model (src/backend/ambiguity/types.py) -/

/-- SynsetDict: a RoWordNet synset record. -/
structure Synset : Type where
  id : String
  definition : String
  pos : String
  literals : List String
deriving DecidableEq

/-- MeaningDict: a candidate meaning of an ambiguous word. -/
structure Meaning : Type where
  id : String
  definition : String
  pos : String
  synonyms : List String
  confidence : ℚ
deriving DecidableEq

/-- AmbiguousWordDict: an ambiguous word with its candidate meanings. -/
structure AmbiguousWord : Type where
  word : String
  pos : String
  position : ℕ
  potential_meanings : List Meaning
  best_meaning : Option Meaning
  ambiguity_score : ℚ
deriving DecidableEq

/-- RecommendationOptionDict. -/
structure RecommendationOption : Type where
  meaning : String
  synonyms : List String
deriving DecidableEq

/-- RecommendationDict. -/
structure Recommendation : Type where
  word : String
  pos : String
  recommendation : String
  options : List RecommendationOption
deriving DecidableEq

/-! ## ner_utils.py -/

/-- is_named_entity: the token (lower-cased) literally equals the
lower-cased text of one of the NER spans. -/
def is_named_entity (token : String) (ner_list : List (String × String)) : Bool :=
  ner_list.any (fun ent => lowerStr token == lowerStr ent.1)

/-! ## similarity.py -/

/-- Dot product of two rational vectors (numpy dot on equal-length rows). -/
def dotQ (a b : List ℚ) : ℚ := (List.zipWith (fun x y => x * y) a b).sum

/-- v / np.linalg.norm(v): divide component-wise by sqrt of the dot square. -/
def normalizeQ (sqrtQ : ℚ → ℚ) (v : List ℚ) : List ℚ :=
  v.map (fun x => x / sqrtQ (dotQ v v))

/-- sklearn.metrics.pairwise.cosine_similarity on a pair of single-row
inputs.  sklearn validates the inputs first: an empty vector (zero
features) or two vectors of different dimensionality raise ValueError,
modelled as `Err.invalidInput`.  It then normalises each row, guarding a
zero norm by replacing it with 1, and returns the dot product. -/
def cosine_similarity_1 (sqrtQ : ℚ → ℚ) (a b : List ℚ) : Except Err ℚ :=
  if a.length = 0 ∨ b.length = 0 then Except.error Err.invalidInput
  else if a.length ≠ b.length then Except.error Err.invalidInput
  else
    let na := sqrtQ (dotQ a a)
    let nb := sqrtQ (dotQ b b)
    let na := if na = 0 then 1 else na
    let nb := if nb = 0 then 1 else nb
    Except.ok (dotQ a b / (na * nb))

/-- calculate_similarities: cosine similarity of the context embedding
against each definition embedding, in order. -/
def calculate_similarities (sqrtQ : ℚ → ℚ) (context_embedding : List ℚ) :
    List (List ℚ) → Except Err (List ℚ)
  | [] => Except.ok []
  | d :: rest =>
    match cosine_similarity_1 sqrtQ context_embedding d with
    | Except.error e => Except.error e
    | Except.ok s =>
      match calculate_similarities sqrtQ context_embedding rest with
      | Except.error e => Except.error e
      | Except.ok ss => Except.ok (s :: ss)

/-- calculate_definition_embeddings: embed every non-empty definition,
keeping order; a raising provider call aborts the whole computation
(the Python code has no try/except here). -/
def calculate_definition_embeddings (embed : String → Except Err (List ℚ)) :
    List String → Except Err (List (List ℚ))
  | [] => Except.ok []
  | d :: rest =>
    if d ≠ "" then
      match embed d with
      | Except.error e => Except.error e
      | Except.ok v =>
        match calculate_definition_embeddings embed rest with
        | Except.error e => Except.error e
        | Except.ok vs => Except.ok (v :: vs)
    else calculate_definition_embeddings embed rest

/-- calculate_context_embedding: join a symmetric window of 5 tokens on
each side of the target token, embed it, and L2-normalise the result. -/
def calculate_context_embedding (sqrtQ : ℚ → ℚ) (embed : String → Except Err (List ℚ))
    (tokens : List String) (token_index : ℕ) : Except Err (List ℚ) :=
  let window_size : ℕ := 5
  let start_idx : ℕ := token_index - window_size
  let end_idx : ℕ := min tokens.length (token_index + window_size + 1)
  let context : String := pyJoin " " ((tokens.drop start_idx).take (end_idx - start_idx))
  match embed context with
  | Except.error e => Except.error e
  | Except.ok v => Except.ok (normalizeQ sqrtQ v)

/-- calculate_similarity_statistics: (max, min, max - min, population
standard deviation).  The empty list yields four zeros; otherwise the
variance divides the sum of squared deviations by n. -/
def calculate_similarity_statistics (sqrtQ : ℚ → ℚ) (similarities : List ℚ) :
    ℚ × ℚ × ℚ × ℚ :=
  match similarities with
  | [] => (0, 0, 0, 0)
  | s :: rest =>
    let max_sim : ℚ := rest.foldl max s
    let min_sim : ℚ := rest.foldl min s
    let sim_diff : ℚ := max_sim - min_sim
    let sim_mean : ℚ := ((s :: rest).foldl (fun x y => x + y) 0) / ((s :: rest).length : ℚ)
    let sim_variance : ℚ :=
      (((s :: rest).map (fun x => (x - sim_mean) ^ 2)).foldl (fun x y => x + y) 0) /
        ((s :: rest).length : ℚ)
    (max_sim, min_sim, sim_diff, sqrtQ sim_variance)

/-! ## Specification-side numeric definitions (written from the words of
the spec, to be compared with the code-side computations above) -/

/-- Maximum of a list of rationals (0 on the empty list, which the code
never consults). -/
def listMaxQ : List ℚ → ℚ
  | [] => 0
  | [x] => x
  | x :: y :: xs => max x (listMaxQ (y :: xs))

/-- Minimum of a list of rationals. -/
def listMinQ : List ℚ → ℚ
  | [] => 0
  | [x] => x
  | x :: y :: xs => min x (listMinQ (y :: xs))

/-- Arithmetic mean. -/
def meanQ (l : List ℚ) : ℚ := l.sum / (l.length : ℚ)

/-- Modelled from the spec: population variance, dividing the sum of
squared deviations by n (not n - 1). -/
def popVarianceQ (l : List ℚ) : ℚ :=
  ((l.map (fun x => (x - meanQ l) ^ 2)).sum) / (l.length : ℚ)

/-- Python max(l) as used by detector.py (first maximal element). -/
def pyMax : List ℚ → ℚ
  | [] => 0
  | x :: xs => xs.foldl max x

/-! ## detector.py -/

/-- The AmbiguityDetector together with its external collaborators.
The Python class stores only `model_name` and `similarity_threshold`;
the embedding model, the RoWordNet inventory and the spaCy NER model are
process-wide singletons, modelled here as fields injected into the
record (spec section 9, dependency-injection reading). -/
structure AmbiguityDetector : Type where
  similarity_threshold : ℚ := 15 / 100
  sqrtQ : ℚ → ℚ
  embed : String → Except Err (List ℚ)
  synsetsForWord : String → List String
  synsetInfo : String → Synset
  ner : String → List (String × String)

/-- _is_content_word: the POS tag starts with NOUN, VERB, ADJ or ADV. -/
def is_content_word (pos : String) : Bool :=
  pyStartsWith pos "NOUN" || pyStartsWith pos "VERB" ||
    pyStartsWith pos "ADJ" || pyStartsWith pos "ADV"

/-- Python dict lookup on the (token, pos) pair list built by
_create_token_pos_map: later bindings shadow earlier ones. -/
def dictGet (m : List (String × String)) (k : String) : Option String :=
  (m.reverse.find? (fun p => p.1 == k)).map (fun p => p.2)

/-- _get_pos_tag: exact lookup, then lower-case, then capitalised, each
fallback taken only while the tag found so far is empty. -/
def get_pos_tag (token : String) (m : List (String × String)) : String :=
  let pos := (dictGet m token).getD ""
  let pos :=
    if pos = "" ∧ (dictGet m (lowerStr token)).isSome then
      (dictGet m (lowerStr token)).getD ""
    else pos
  let pos :=
    if pos = "" ∧ (dictGet m (pyCapitalize token)).isSome then
      (dictGet m (pyCapitalize token)).getD ""
    else pos
  pos

/-- is_ambiguous: the heuristic decision rule over the similarity
statistics and the synset count. -/
def is_ambiguous (sqrtQ : ℚ → ℚ) (similarity_threshold : ℚ)
    (similarities : List ℚ) (synset_count : ℕ) : Bool :=
  if similarities.length ≤ 1 then false
  else
    let st := calculate_similarity_statistics sqrtQ similarities
    let max_sim := st.1
    let sim_diff := st.2.2.1
    let sim_std := st.2.2.2
    if sim_diff > similarity_threshold ∨ sim_std > similarity_threshold ∨
        (max_sim < 6 / 10 ∧ synset_count > 2) ∨
        (synset_count > 5 ∧ sim_diff > 1 / 10) then true
    else false

/-- create_meaning: project a synset plus its confidence. -/
def create_meaning (synset : Synset) (confidence : ℚ) : Meaning :=
  { id := synset.id
    definition := synset.definition
    pos := synset.pos
    synonyms := synset.literals
    confidence := confidence }

/-- definition text used for embedding a synset:
`synset["definition"] or " ".join(synset["literals"])`. -/
def synsetDefText (s : Synset) : String :=
  if s.definition ≠ "" then s.definition else pyJoin " " s.literals

/-- The same fallback text computed from a Meaning record (a Meaning
copies definition and literals verbatim from its synset). -/
def meaningDefText (m : Meaning) : String :=
  if m.definition ≠ "" then m.definition else pyJoin " " m.synonyms

/-- The potential_meanings list: one meaning per synset, in order, the
i-th one receiving `similarities[i] if i < len(similarities) else 0.0`. -/
def buildMeanings (synsets : List Synset) (similarities : List ℚ) : List Meaning :=
  synsets.enum.map (fun p => create_meaning p.2 (similarities.getD p.1 0))

/-- create_ambiguous_word: best_meaning is potential_meanings[idx] when
the list is non-empty and the index is in range, else None. -/
def create_ambiguous_word (token : String) (pos : String) (token_index : ℕ)
    (potential_meanings : List Meaning) (best_meaning_idx : ℕ)
    (ambiguity_score : ℚ) : AmbiguousWord :=
  { word := token
    pos := pos
    position := token_index
    potential_meanings := potential_meanings
    best_meaning := potential_meanings.get? best_meaning_idx
    ambiguity_score := ambiguity_score }

/-- The body of the per-token loop of detect_ambiguities: either skips
the token (ok none), emits an ambiguous word (ok some), or propagates a
raising provider call (error). -/
def processToken (cfg : AmbiguityDetector) (tokens : List String)
    (posMap : List (String × String)) (ents : List (String × String))
    (token_index : ℕ) (token : String) : Except Err (Option AmbiguousWord) :=
  if is_named_entity token ents then Except.ok none
  else if ¬ is_content_word (get_pos_tag token posMap) then Except.ok none
  else if (cfg.synsetsForWord (lowerStr token)).length ≤ 1 then Except.ok none
  else
    match calculate_definition_embeddings cfg.embed
        (((cfg.synsetsForWord (lowerStr token)).map cfg.synsetInfo).map synsetDefText) with
    | Except.error e => Except.error e
    | Except.ok definition_embeddings =>
      if definition_embeddings.length ≤ 1 then Except.ok none
      else
        match calculate_context_embedding cfg.sqrtQ cfg.embed tokens token_index with
        | Except.error e => Except.error e
        | Except.ok context_embedding =>
          match calculate_similarities cfg.sqrtQ context_embedding definition_embeddings with
          | Except.error e => Except.error e
          | Except.ok similarities =>
            if is_ambiguous cfg.sqrtQ cfg.similarity_threshold similarities
                (cfg.synsetsForWord (lowerStr token)).length then
              Except.ok (some (create_ambiguous_word token (get_pos_tag token posMap)
                token_index
                (buildMeanings ((cfg.synsetsForWord (lowerStr token)).map cfg.synsetInfo)
                  similarities)
                (if similarities = [] then 0 else similarities.indexOf (pyMax similarities))
                (calculate_similarity_statistics cfg.sqrtQ similarities).2.2.1))
            else Except.ok none

/-- The enumerate loop of detect_ambiguities over (index, token) pairs.
A raising provider call inside any token aborts the whole run, matching
the absence of try/except in the Python loop. -/
def detectGo (cfg : AmbiguityDetector) (tokens : List String)
    (posMap : List (String × String)) (ents : List (String × String)) :
    List (ℕ × String) → Except Err (List AmbiguousWord)
  | [] => Except.ok []
  | p :: rest =>
    match processToken cfg tokens posMap ents p.1 p.2 with
    | Except.error e => Except.error e
    | Except.ok none => detectGo cfg tokens posMap ents rest
    | Except.ok (some w) =>
      match detectGo cfg tokens posMap ents rest with
      | Except.error e => Except.error e
      | Except.ok ws => Except.ok (w :: ws)

/-- detect_ambiguities: named entities are recomputed from the joined
token text, then every token is processed in order. -/
def detectAmbiguities (cfg : AmbiguityDetector) (tokens : List String)
    (pos_tags : List (String × String)) : Except Err (List AmbiguousWord) :=
  detectGo cfg tokens pos_tags (cfg.ner (pyJoin " " tokens)) tokens.enum

/-! ## recommender.py -/

/-- Stable insertion of a meaning into a list sorted by descending
confidence: walk past strictly larger confidences, so that equal
confidences keep their original relative order. -/
def insertDesc (m : Meaning) : List Meaning → List Meaning
  | [] => [m]
  | x :: xs =>
    if x.confidence > m.confidence then x :: insertDesc m xs else m :: x :: xs

/-- Python sorted(meanings, key=confidence, reverse=True): a stable sort
by descending confidence. -/
def sortMeaningsDesc : List Meaning → List Meaning
  | [] => []
  | m :: ms => insertDesc m (sortMeaningsDesc ms)

/-- One recommendation option, built from a meaning: the definition with
its placeholder fallback, and the synonym list with the target word
removed case-insensitively, falling back to a placeholder list. -/
def build_option (word : String) (meaning : Meaning) : RecommendationOption :=
  let other_synonyms := meaning.synonyms.filter (fun s => lowerStr s ≠ lowerStr word)
  { meaning := if meaning.definition ≠ "" then meaning.definition
      else "No definition available"
    synonyms := if other_synonyms ≠ [] then other_synonyms
      else ["No direct synonyms available"] }

/-- The loop body of get_recommendations for one ambiguous word: sort
the meanings by descending confidence, keep the top 3, and build one
option per kept meaning. -/
def recommendationFor (word_info : AmbiguousWord) : Recommendation :=
  let top_meanings := (sortMeaningsDesc word_info.potential_meanings).take 3
  { word := word_info.word
    pos := word_info.pos
    recommendation := "The word \u0027" ++ word_info.word ++
      "\u0027 is ambiguous. Consider using a more specific synonym based on the intended meaning:"
    options := top_meanings.map (build_option word_info.word) }

/-- get_recommendations: words with at most one potential meaning are
dropped, every other word yields one recommendation, in order. -/
def get_recommendations : List AmbiguousWord → List Recommendation
  | [] => []
  | w :: rest =>
    if w.potential_meanings.length ≤ 1 then get_recommendations rest
    else recommendationFor w :: get_recommendations rest

/-! ## Concrete runs used to witness and to refute claims -/

/-- A concrete stand-in for the square root in concrete runs (the claims
hold for every square-root function, so any concrete one will do). -/
def sqrtId : ℚ → ℚ := fun q => q

/-- Scenario A: embedding provider.  The context window text embeds to
[1, 0]; definition d1 embeds opposite to it, d2 embeds further away. -/
def embedA : String → Except Err (List ℚ) := fun s =>
  if s = "d1" then Except.ok [-1, 0]
  else if s = "d2" then Except.ok [-2, 0]
  else Except.ok [1, 0]

/-- Scenario A: inventory lookup; the word casa has three senses. -/
def synForA : String → List String := fun w =>
  if w = "casa" then ["s1", "s2", "s3"] else []

/-- Scenario A: sense records; s3 has an empty definition and no
literals, so its definition text is empty and it gets no embedding. -/
def infoA : String → Synset := fun i =>
  if i = "s1" then { id := "s1", definition := "d1", pos := "n", literals := ["casă", "locuință"] }
  else if i = "s2" then { id := "s2", definition := "d2", pos := "n", literals := ["masă"] }
  else { id := i, definition := "", pos := "n", literals := [] }

/-- Scenario A: the NER model tags Ana as a person. -/
def nerA : String → List (String × String) := fun _ => [("Ana", "PER")]

/-- Scenario A detector (default threshold 0.15). -/
def cfgA : AmbiguityDetector :=
  { sqrtQ := sqrtId, embed := embedA, synsetsForWord := synForA,
    synsetInfo := infoA, ner := nerA }

def tokensA : List String := ["ana", "casa"]

def posTagsA : List (String × String) := [("ana", "PROPN"), ("casa", "NOUN")]

/-- The single ambiguous word scenario A produces: similarities are
[-1, -1/2] for s1 and s2, s3 is padded with confidence 0. -/
def wordA : AmbiguousWord :=
  { word := "casa", pos := "NOUN", position := 1,
    potential_meanings :=
      [ { id := "s1", definition := "d1", pos := "n",
          synonyms := ["casă", "locuință"], confidence := -1 },
        { id := "s2", definition := "d2", pos := "n",
          synonyms := ["masă"], confidence := -(1/2) },
        { id := "s3", definition := "", pos := "n",
          synonyms := [], confidence := 0 } ],
    best_meaning := some
      { id := "s2", definition := "d2", pos := "n",
        synonyms := ["masă"], confidence := -(1/2) },
    ambiguity_score := 1/2 }

/-- Scenario B: like scenario A but every sense has a non-empty
definition, so similarities and meanings align one to one. -/
def embedB : String → Except Err (List ℚ) := fun s =>
  if s = "d1" then Except.ok [-1, 0]
  else if s = "d2" then Except.ok [-2, 0]
  else if s = "d3" then Except.ok [3, 4]
  else Except.ok [1, 0]

def infoB : String → Synset := fun i =>
  if i = "s1" then { id := "s1", definition := "d1", pos := "n", literals := ["casă", "locuință"] }
  else if i = "s2" then { id := "s2", definition := "d2", pos := "n", literals := ["masă"] }
  else if i = "s3" then { id := "s3", definition := "d3", pos := "n", literals := ["tabel"] }
  else { id := i, definition := "", pos := "n", literals := [] }

def cfgB : AmbiguityDetector :=
  { sqrtQ := sqrtId, embed := embedB, synsetsForWord := synForA,
    synsetInfo := infoB, ner := nerA }

/-- The single ambiguous word scenario B produces: similarities
[-1, -1/2, 3/25]. -/
def wordB : AmbiguousWord :=
  { word := "casa", pos := "NOUN", position := 1,
    potential_meanings :=
      [ { id := "s1", definition := "d1", pos := "n",
          synonyms := ["casă", "locuință"], confidence := -1 },
        { id := "s2", definition := "d2", pos := "n",
          synonyms := ["masă"], confidence := -(1/2) },
        { id := "s3", definition := "d3", pos := "n",
          synonyms := ["tabel"], confidence := 3/25 } ],
    best_meaning := some
      { id := "s3", definition := "d3", pos := "n",
        synonyms := ["tabel"], confidence := 3/25 },
    ambiguity_score := 28/25 }

/-- Scenario F: the provider raises EmbeddingFailed on the first
definition of the first token; the second token would have been fine. -/
def embedF : String → Except Err (List ℚ) := fun s =>
  if s = "rd1" then Except.error Err.embeddingFailed
  else if s = "d1" then Except.ok [-1, 0]
  else if s = "d2" then Except.ok [-2, 0]
  else Except.ok [1, 0]

def synForF : String → List String := fun w =>
  if w = "rege" then ["r1", "r2"]
  else if w = "casa" then ["s1", "s2"] else []

def infoF : String → Synset := fun i =>
  if i = "r1" then { id := "r1", definition := "rd1", pos := "n", literals := [] }
  else if i = "r2" then { id := "r2", definition := "rd2", pos := "n", literals := [] }
  else if i = "s1" then { id := "s1", definition := "d1", pos := "n", literals := [] }
  else if i = "s2" then { id := "s2", definition := "d2", pos := "n", literals := [] }
  else { id := i, definition := "", pos := "n", literals := [] }

def cfgF : AmbiguityDetector :=
  { sqrtQ := sqrtId, embed := embedF, synsetsForWord := synForF,
    synsetInfo := infoF, ner := fun _ => [] }

def tokensF : List String := ["rege", "casa"]

def posTagsF : List (String × String) := [("rege", "NOUN"), ("casa", "NOUN")]

/-- Recommender scenario: the shape of the spec example, six meanings
with descending distinct confidences (confidences scaled by 100 so that
concrete runs stay within kernel-computable rational comparisons). -/
def mMasa (n : String) (d : String) (syns : List String) (c : ℚ) : Meaning :=
  { id := n, definition := d, pos := "n", synonyms := syns, confidence := c }

def wordMasa : AmbiguousWord :=
  { word := "masa", pos := "NOUN", position := 0,
    potential_meanings :=
      [ mMasa "m1" "mobilă" ["birou"] 72,
        mMasa "m2" "mulțime" ["grup"] 69,
        mMasa "m3" "mâncare" ["prânz"] 54,
        mMasa "m4" "" ["Masa"] 42,
        mMasa "m5" "ședință" [] 37,
        mMasa "m6" "masaj" ["masaj"] 15 ],
    best_meaning := some (mMasa "m1" "mobilă" ["birou"] 72),
    ambiguity_score := 57 }

/-- Pathological recommender input: the ambiguous word itself equals the
synonym fallback placeholder text case-insensitively. -/
def pathoMeaning1 : Meaning :=
  { id := "p1", definition := "defp1", pos := "n",
    synonyms := ["NO DIRECT SYNONYMS AVAILABLE"], confidence := 2 }

def pathoMeaning2 : Meaning :=
  { id := "p2", definition := "defp2", pos := "n",
    synonyms := ["No Direct Synonyms Available"], confidence := 1 }

def pathoWord : AmbiguousWord :=
  { word := "No direct synonyms available", pos := "NOUN", position := 0,
    potential_meanings := [pathoMeaning1, pathoMeaning2],
    best_meaning := some pathoMeaning1, ambiguity_score := 1 }

/-! ## Evaluation of the concrete runs

The string-level steps reduce in the kernel and are settled by decide;
the rational-arithmetic steps are settled by norm_num. -/

theorem processToken_A_ana :
    processToken cfgA tokensA posTagsA [("Ana", "PER")] 0 "ana" = Except.ok none := by
  decide

theorem processToken_A_casa :
    processToken cfgA tokensA posTagsA [("Ana", "PER")] 1 "casa" =
      Except.ok (some wordA) := by
  have h1 : is_named_entity "casa" [("Ana", "PER")] = false := by decide
  have h2 : is_content_word (get_pos_tag "casa" posTagsA) = true := by decide
  have h3 : cfgA.synsetsForWord (lowerStr "casa") = ["s1", "s2", "s3"] := by decide
  have h4 : ((["s1", "s2", "s3"].map cfgA.synsetInfo).map synsetDefText) =
      ["d1", "d2", ""] := by decide
  have h5 : calculate_definition_embeddings cfgA.embed ["d1", "d2", ""] =
      Except.ok [[-1, 0], [-2, 0]] := by decide
  have h6 : calculate_context_embedding cfgA.sqrtQ cfgA.embed tokensA 1 =
      Except.ok [1, 0] := by
    have he : embedA (pyJoin " " (List.take (tokensA.length ⊓ 7) tokensA)) =
        Except.ok [1, 0] := by decide
    norm_num [calculate_context_embedding, he, normalizeQ, dotQ, cfgA, sqrtId]
  have h7 : calculate_similarities cfgA.sqrtQ [1, 0] [[-1, 0], [-2, 0]] =
      Except.ok [-1, -(1/2)] := by
    norm_num [calculate_similarities, cosine_similarity_1, dotQ, cfgA, sqrtId]
  have h8 : is_ambiguous cfgA.sqrtQ cfgA.similarity_threshold [-1, -(1/2)] 3 = true := by
    norm_num [is_ambiguous, calculate_similarity_statistics, cfgA, sqrtId,
      max_def, min_def]
  have h9 : buildMeanings [cfgA.synsetInfo "s1", cfgA.synsetInfo "s2", cfgA.synsetInfo "s3"]
      [-1, -(1/2)] = wordA.potential_meanings := by
    norm_num [buildMeanings, cfgA, infoA, create_meaning, wordA,
      List.enum, List.enumFrom, List.getD, List.get?, Meaning.mk.injEq]
    decide
  have h10 : (if ([-1, -(1/2)] : List ℚ) = [] then 0
      else List.indexOf (pyMax [-1, -(1/2)]) [-1, -(1/2)]) = 1 := by
    norm_num [pyMax, List.indexOf, List.findIdx, List.findIdx.go, max_def,
      Bool.cond_eq_ite, beq_iff_eq]
    exact List.cons_ne_nil _ _
  have h11 : (calculate_similarity_statistics cfgA.sqrtQ [-1, -(1/2)]).2.2.1 = 1/2 := by
    norm_num [calculate_similarity_statistics, cfgA, sqrtId, max_def, min_def]
  have h12 : get_pos_tag "casa" posTagsA = "NOUN" := by decide
  have h13 : is_content_word "NOUN" = true := by decide
  simp only [processToken, h1, h2, h3, h4, h5, h6, h7, h8, h12, Bool.false_eq_true,
    if_false, if_true, Bool.not_true, List.length_cons, List.length_nil]
  norm_num [h9, h10, h11, h13, create_ambiguous_word, wordA, List.get?]

/-- Scenario A end to end: the named entity ana is skipped, casa is
flagged ambiguous. -/
theorem detectA_eval : detectAmbiguities cfgA tokensA posTagsA = Except.ok [wordA] := by
  have hents : cfgA.ner (pyJoin " " tokensA) = [("Ana", "PER")] := by decide
  have henum : tokensA.enum = [(0, "ana"), (1, "casa")] := by decide
  simp only [detectAmbiguities, hents, henum, detectGo, processToken_A_ana,
    processToken_A_casa]
  norm_num [processToken_A_casa]

theorem processToken_B_ana :
    processToken cfgB tokensA posTagsA [("Ana", "PER")] 0 "ana" = Except.ok none := by
  decide

theorem processToken_B_casa :
    processToken cfgB tokensA posTagsA [("Ana", "PER")] 1 "casa" =
      Except.ok (some wordB) := by
  have h1 : is_named_entity "casa" [("Ana", "PER")] = false := by decide
  have h3 : cfgB.synsetsForWord (lowerStr "casa") = ["s1", "s2", "s3"] := by decide
  have h4 : ((["s1", "s2", "s3"].map cfgB.synsetInfo).map synsetDefText) =
      ["d1", "d2", "d3"] := by decide
  have h5 : calculate_definition_embeddings cfgB.embed ["d1", "d2", "d3"] =
      Except.ok [[-1, 0], [-2, 0], [3, 4]] := by decide
  have h6 : calculate_context_embedding cfgB.sqrtQ cfgB.embed tokensA 1 =
      Except.ok [1, 0] := by
    have he : embedB (pyJoin " " (List.take (tokensA.length ⊓ 7) tokensA)) =
        Except.ok [1, 0] := by decide
    norm_num [calculate_context_embedding, he, normalizeQ, dotQ, cfgB, sqrtId]
  have h7 : calculate_similarities cfgB.sqrtQ [1, 0] [[-1, 0], [-2, 0], [3, 4]] =
      Except.ok [-1, -(1/2), 3/25] := by
    norm_num [calculate_similarities, cosine_similarity_1, dotQ, cfgB, sqrtId]
  have h8 : is_ambiguous cfgB.sqrtQ cfgB.similarity_threshold [-1, -(1/2), 3/25] 3 =
      true := by
    norm_num [is_ambiguous, calculate_similarity_statistics, cfgB, sqrtId,
      max_def, min_def]
  have h9 : buildMeanings [cfgB.synsetInfo "s1", cfgB.synsetInfo "s2", cfgB.synsetInfo "s3"]
      [-1, -(1/2), 3/25] = wordB.potential_meanings := by
    norm_num [buildMeanings, cfgB, infoB, create_meaning, wordB,
      List.enum, List.enumFrom, List.getD, List.get?, Meaning.mk.injEq]
    decide
  have h10 : (if ([-1, -(1/2), 3/25] : List ℚ) = [] then 0
      else List.indexOf (pyMax [-1, -(1/2), 3/25]) [-1, -(1/2), 3/25]) = 2 := by
    norm_num [pyMax, List.indexOf, List.findIdx, List.findIdx.go, max_def,
      Bool.cond_eq_ite, beq_iff_eq]
    exact List.cons_ne_nil _ _
  have h11 : (calculate_similarity_statistics cfgB.sqrtQ [-1, -(1/2), 3/25]).2.2.1 =
      28/25 := by
    norm_num [calculate_similarity_statistics, cfgB, sqrtId, max_def, min_def]
  have h12 : get_pos_tag "casa" posTagsA = "NOUN" := by decide
  have h13 : is_content_word "NOUN" = true := by decide
  simp only [processToken, h1, h3, h4, h5, h6, h7, h8, h12, Bool.false_eq_true,
    if_false, if_true, Bool.not_true, List.length_cons, List.length_nil]
  norm_num [h9, h10, h11, h13, create_ambiguous_word, wordB, List.get?]

/-- Scenario B end to end: casa is flagged ambiguous with three aligned
meanings. -/
theorem detectB_eval : detectAmbiguities cfgB tokensA posTagsA = Except.ok [wordB] := by
  have hents : cfgB.ner (pyJoin " " tokensA) = [("Ana", "PER")] := by decide
  have henum : tokensA.enum = [(0, "ana"), (1, "casa")] := by decide
  simp only [detectAmbiguities, hents, henum, detectGo, processToken_B_ana,
    processToken_B_casa]
  norm_num [processToken_B_casa]


/-! ## Basic list lemmas connecting the code-side folds with the
spec-side recursions -/

theorem foldl_max_eq_listMaxQ : ∀ (rest : List ℚ) (s : ℚ),
    rest.foldl max s = listMaxQ (s :: rest) := by
  intro rest
  induction rest with
  | nil => intro s; simp [listMaxQ]
  | cons r rs ih =>
    intro s
    have h : (r :: rs).foldl max s = rs.foldl max (max s r) := by simp
    rw [h, ih (max s r)]
    cases rs with
    | nil => simp [listMaxQ]
    | cons a as => simp [listMaxQ, max_assoc]

theorem foldl_min_eq_listMinQ : ∀ (rest : List ℚ) (s : ℚ),
    rest.foldl min s = listMinQ (s :: rest) := by
  intro rest
  induction rest with
  | nil => intro s; simp [listMinQ]
  | cons r rs ih =>
    intro s
    have h : (r :: rs).foldl min s = rs.foldl min (min s r) := by simp
    rw [h, ih (min s r)]
    cases rs with
    | nil => simp [listMinQ]
    | cons a as => simp [listMinQ, min_assoc]

theorem pyMax_eq_listMaxQ (s : ℚ) (rest : List ℚ) :
    pyMax (s :: rest) = listMaxQ (s :: rest) := by
  simp [pyMax, foldl_max_eq_listMaxQ]

theorem listMaxQ_mem : ∀ (l : List ℚ), l ≠ [] → listMaxQ l ∈ l := by
  intro l
  induction l with
  | nil => intro h; exact absurd rfl h
  | cons x xs ih =>
    intro _
    cases xs with
    | nil => simp [listMaxQ]
    | cons y ys =>
      rw [listMaxQ]
      rcases max_choice x (listMaxQ (y :: ys)) with h | h
      · rw [h]; exact List.mem_cons_self _ _
      · rw [h]; exact List.mem_cons_of_mem _ (ih (by simp))

theorem le_listMaxQ : ∀ (l : List ℚ) (a : ℚ), a ∈ l → a ≤ listMaxQ l := by
  intro l
  induction l with
  | nil => intro a ha; simp at ha
  | cons x xs ih =>
    intro a ha
    cases xs with
    | nil => simp at ha; simp [listMaxQ, ha]
    | cons y ys =>
      rw [listMaxQ]
      rcases List.mem_cons.mp ha with h | h
      · rw [h]; exact le_max_left _ _
      · exact le_trans (ih a h) (le_max_right _ _)

theorem listMinQ_le : ∀ (l : List ℚ) (a : ℚ), a ∈ l → listMinQ l ≤ a := by
  intro l
  induction l with
  | nil => intro a ha; simp at ha
  | cons x xs ih =>
    intro a ha
    cases xs with
    | nil => simp at ha; simp [listMinQ, ha]
    | cons y ys =>
      rw [listMinQ]
      rcases List.mem_cons.mp ha with h | h
      · rw [h]; exact min_le_left _ _
      · exact le_trans (min_le_right _ _) (ih a h)

theorem foldl_add_eq_sum : ∀ (l : List ℚ) (a : ℚ),
    l.foldl (fun x y => x + y) a = a + l.sum := by
  intro l
  induction l with
  | nil => intro a; simp
  | cons x xs ih => intro a; simp [ih, add_assoc]

/-- The code-side statistics agree with the spec-side (max, min, spread,
sqrt of population variance) on every non-empty list. -/
theorem stats_eq_spec (sqrtQ : ℚ → ℚ) (l : List ℚ) (hl : l ≠ []) :
    calculate_similarity_statistics sqrtQ l =
      (listMaxQ l, listMinQ l, listMaxQ l - listMinQ l, sqrtQ (popVarianceQ l)) := by
  cases l with
  | nil => exact absurd rfl hl
  | cons s rest =>
    show (rest.foldl max s, rest.foldl min s, rest.foldl max s - rest.foldl min s, _) = _
    rw [foldl_max_eq_listMaxQ, foldl_min_eq_listMinQ]
    refine Prod.ext rfl (Prod.ext rfl (Prod.ext rfl ?_))
    show sqrtQ _ = sqrtQ (popVarianceQ (s :: rest))
    congr 1
    rw [popVarianceQ, meanQ, foldl_add_eq_sum, foldl_add_eq_sum, zero_add, zero_add]

/-! ## Length bookkeeping for the embedding and similarity steps -/

/-- Number of non-empty definition texts (the ones that get embedded). -/
def countNonempty : List String → ℕ
  | [] => 0
  | d :: ds => (if d ≠ "" then 1 else 0) + countNonempty ds

theorem countNonempty_le_length : ∀ (ds : List String), countNonempty ds ≤ ds.length := by
  intro ds
  induction ds with
  | nil => simp [countNonempty]
  | cons d ds ih =>
    by_cases h : d = "" <;> simp [countNonempty, h] <;> omega

theorem countNonempty_eq_length (ds : List String) (h : ∀ d ∈ ds, d ≠ "") :
    countNonempty ds = ds.length := by
  induction ds with
  | nil => simp [countNonempty]
  | cons d ds ih =>
    have hd : d ≠ "" := h d (List.mem_cons_self _ _)
    simp [countNonempty, hd, ih (fun x hx => h x (List.mem_cons_of_mem _ hx))]
    omega

theorem calc_def_embeddings_ok_length
    {embed : String → Except Err (List ℚ)} :
    ∀ {ds : List String} {es : List (List ℚ)},
      calculate_definition_embeddings embed ds = Except.ok es →
      es.length = countNonempty ds := by
  intro ds
  induction ds with
  | nil =>
    intro es h
    simp only [calculate_definition_embeddings] at h
    cases h
    simp [countNonempty]
  | cons d ds ih =>
    intro es h
    simp only [calculate_definition_embeddings] at h
    split at h
    · rename_i hd
      split at h
      · cases h
      · rename_i v hv
        split at h
        · cases h
        · rename_i vs hvs
          cases h
          simp [countNonempty, hd, ih hvs]
          omega
    · rename_i hd
      have hd' : d = "" := by
        by_contra hne
        exact hd hne
      simp [countNonempty, hd', ih h]

theorem calc_similarities_ok_length {sqrtQ : ℚ → ℚ} {c : List ℚ} :
    ∀ {ds : List (List ℚ)} {sims : List ℚ},
      calculate_similarities sqrtQ c ds = Except.ok sims →
      sims.length = ds.length := by
  intro ds
  induction ds with
  | nil =>
    intro sims h
    simp only [calculate_similarities] at h
    cases h
    rfl
  | cons d ds ih =>
    intro sims h
    simp only [calculate_similarities] at h
    split at h
    · cases h
    · split at h
      · cases h
      · rename_i _ _ ss hss
        cases h
        simp [ih hss]

/-! ## The decision rule -/

theorem is_ambiguous_true_length {sqrtQ : ℚ → ℚ} {t : ℚ} {sims : List ℚ} {n : ℕ}
    (h : is_ambiguous sqrtQ t sims n = true) : 2 ≤ sims.length := by
  by_contra hlen
  have h1 : sims.length ≤ 1 := by omega
  simp [is_ambiguous, h1] at h

/-! ## The shape of the potential_meanings list -/

/-- Recursive reformulation of buildMeanings: walk the synsets and the
similarities in parallel, padding missing similarities with 0. -/
def zipPadMeanings : List Synset → List ℚ → List Meaning
  | [], _ => []
  | s :: ss, [] => create_meaning s 0 :: zipPadMeanings ss []
  | s :: ss, c :: cs => create_meaning s c :: zipPadMeanings ss cs

theorem enumFrom_map_meaning (sims : List ℚ) :
    ∀ (ss : List Synset) (n : ℕ),
      (List.enumFrom n ss).map (fun p => create_meaning p.2 (sims.getD p.1 0)) =
        zipPadMeanings ss (sims.drop n) := by
  intro ss
  induction ss with
  | nil => intro n; simp [zipPadMeanings]
  | cons s ss ih =>
    intro n
    have hgd : sims.getD n 0 = (sims.drop n).headD 0 := by
      rw [List.getD_eq_getElem?_getD, List.headD_eq_head?_getD, List.head?_drop]
    have htl : sims.drop (n + 1) = (sims.drop n).tail := (List.tail_drop sims n).symm
    rw [List.enumFrom_cons, List.map_cons, ih (n + 1), hgd, htl]
    cases hd : sims.drop n with
    | nil => simp [zipPadMeanings]
    | cons c cs => simp [zipPadMeanings]

theorem buildMeanings_eq_zipPad (ss : List Synset) (sims : List ℚ) :
    buildMeanings ss sims = zipPadMeanings ss sims := by
  rw [buildMeanings, List.enum]
  rw [enumFrom_map_meaning sims ss 0, List.drop_zero]

theorem zipPad_length : ∀ (ss : List Synset) (cs : List ℚ),
    (zipPadMeanings ss cs).length = ss.length := by
  intro ss
  induction ss with
  | nil => intro cs; cases cs <;> simp [zipPadMeanings]
  | cons s ss ih => intro cs; cases cs <;> simp [zipPadMeanings, ih]

theorem zipPad_mem_fields : ∀ (ss : List Synset) (cs : List ℚ) (m : Meaning),
    m ∈ zipPadMeanings ss cs →
    ∃ s ∈ ss, m.definition = s.definition ∧ m.synonyms = s.literals := by
  intro ss
  induction ss with
  | nil => intro cs m hm; cases cs <;> simp [zipPadMeanings] at hm
  | cons s ss ih =>
    intro cs m hm
    cases cs with
    | nil =>
      rcases List.mem_cons.mp hm with h | h
      · exact ⟨s, List.mem_cons_self _ _, by rw [h]; exact ⟨rfl, rfl⟩⟩
      · obtain ⟨s', hs', hf⟩ := ih [] m h
        exact ⟨s', List.mem_cons_of_mem _ hs', hf⟩
    | cons c cs =>
      rcases List.mem_cons.mp hm with h | h
      · exact ⟨s, List.mem_cons_self _ _, by rw [h]; exact ⟨rfl, rfl⟩⟩
      · obtain ⟨s', hs', hf⟩ := ih cs m h
        exact ⟨s', List.mem_cons_of_mem _ hs', hf⟩

theorem zipPad_fields_mem : ∀ (ss : List Synset) (cs : List ℚ) (s : Synset),
    s ∈ ss →
    ∃ m ∈ zipPadMeanings ss cs, m.definition = s.definition ∧ m.synonyms = s.literals := by
  intro ss
  induction ss with
  | nil => intro cs s hs; simp at hs
  | cons s0 ss ih =>
    intro cs s hs
    rcases List.mem_cons.mp hs with h | h
    · cases cs with
      | nil =>
        exact ⟨create_meaning s0 0, List.mem_cons_self _ _, by rw [h]; exact ⟨rfl, rfl⟩⟩
      | cons c cs =>
        exact ⟨create_meaning s0 c, List.mem_cons_self _ _, by rw [h]; exact ⟨rfl, rfl⟩⟩
    · cases cs with
      | nil =>
        obtain ⟨m, hm, hf⟩ := ih [] s h
        exact ⟨m, List.mem_cons_of_mem _ hm, hf⟩
      | cons c cs =>
        obtain ⟨m, hm, hf⟩ := ih cs s h
        exact ⟨m, List.mem_cons_of_mem _ hm, hf⟩

theorem zipPad_map_confidence : ∀ (ss : List Synset) (cs : List ℚ),
    cs.length = ss.length →
    (zipPadMeanings ss cs).map Meaning.confidence = cs := by
  intro ss
  induction ss with
  | nil =>
    intro cs h
    cases cs with
    | nil => simp [zipPadMeanings]
    | cons c cs => simp at h
  | cons s ss ih =>
    intro cs h
    cases cs with
    | nil => simp at h
    | cons c cs =>
      simp only [zipPadMeanings, List.map_cons]
      rw [ih cs (by simpa using h)]
      rfl

theorem zipPad_get?_confidence : ∀ (ss : List Synset) (cs : List ℚ) (j : ℕ),
    j < cs.length → cs.length ≤ ss.length →
    ((zipPadMeanings ss cs).get? j).map Meaning.confidence = cs.get? j := by
  intro ss
  induction ss with
  | nil =>
    intro cs j hj hle
    cases cs with
    | nil => simp at hj
    | cons c cs => simp at hle
  | cons s ss ih =>
    intro cs j hj hle
    cases cs with
    | nil => simp at hj
    | cons c cs =>
      cases j with
      | zero => simp [zipPadMeanings, create_meaning]
      | succ j =>
        simp only [zipPadMeanings, List.get?_cons_succ]
        exact ih cs j (by simpa using hj) (by simpa using hle)

/-! ## Characterisation of an emitted ambiguous word -/

theorem processToken_ok_some
    {cfg : AmbiguityDetector} {tokens : List String}
    {posMap ents : List (String × String)} {i : ℕ} {tok : String} {w : AmbiguousWord}
    (h : processToken cfg tokens posMap ents i tok = Except.ok (some w)) :
    ∃ sims : List ℚ,
      is_named_entity tok ents = false ∧
      2 ≤ (cfg.synsetsForWord (lowerStr tok)).length ∧
      2 ≤ sims.length ∧
      sims.length =
        countNonempty (((cfg.synsetsForWord (lowerStr tok)).map cfg.synsetInfo).map
          synsetDefText) ∧
      w = create_ambiguous_word tok (get_pos_tag tok posMap) i
            (buildMeanings ((cfg.synsetsForWord (lowerStr tok)).map cfg.synsetInfo) sims)
            (sims.indexOf (pyMax sims))
            (calculate_similarity_statistics cfg.sqrtQ sims).2.2.1 := by
  simp only [processToken] at h
  split at h
  · simp at h
  · rename_i hne
    split at h
    · simp at h
    · rename_i hcw
      split at h
      · simp at h
      · rename_i hslen
        split at h
        · simp at h
        · rename_i defEmbs hdefEmbs
          split at h
          · simp at h
          · rename_i hdlen
            split at h
            · simp at h
            · rename_i ctx hctx
              split at h
              · simp at h
              · rename_i sims hsims
                split at h
                · rename_i hamb
                  have hw := (Except.ok.inj h)
                  have hw' := Option.some.inj hw
                  have hslen2 : sims.length = defEmbs.length :=
                    calc_similarities_ok_length hsims
                  have hcount : defEmbs.length = countNonempty
                      (((cfg.synsetsForWord (lowerStr tok)).map cfg.synsetInfo).map
                        synsetDefText) :=
                    calc_def_embeddings_ok_length hdefEmbs
                  have h2 : 2 ≤ sims.length := by omega
                  have hnil : sims ≠ [] := by
                    intro hcon
                    rw [hcon] at h2
                    simp at h2
                  refine ⟨sims, ?_, by omega, h2, by omega, ?_⟩
                  · simpa using hne
                  · rw [← hw']
                    rw [if_neg hnil]
                · simp at h

theorem processToken_fields
    {cfg : AmbiguityDetector} {tokens : List String}
    {posMap ents : List (String × String)} {i : ℕ} {tok : String} {w : AmbiguousWord}
    (h : processToken cfg tokens posMap ents i tok = Except.ok (some w)) :
    w.position = i ∧ w.word = tok := by
  obtain ⟨sims, -, -, -, -, hw⟩ := processToken_ok_some h
  rw [hw]
  exact ⟨rfl, rfl⟩

theorem detectGo_ok_mem {cfg : AmbiguityDetector} {tokens : List String}
    {posMap ents : List (String × String)} :
    ∀ {ps : List (ℕ × String)} {ws : List AmbiguousWord},
      detectGo cfg tokens posMap ents ps = Except.ok ws →
      ∀ w ∈ ws, ∃ p ∈ ps,
        processToken cfg tokens posMap ents p.1 p.2 = Except.ok (some w) := by
  intro ps
  induction ps with
  | nil =>
    intro ws h w hw
    simp only [detectGo] at h
    cases h
    simp at hw
  | cons p rest ih =>
    intro ws h w hw
    simp only [detectGo] at h
    split at h
    · cases h
    · rename_i heq
      obtain ⟨q, hq, hq2⟩ := ih h w hw
      exact ⟨q, List.mem_cons_of_mem _ hq, hq2⟩
    · rename_i w0 heq
      split at h
      · cases h
      · rename_i ws' hws'
        cases h
        rcases List.mem_cons.mp hw with hcase | hcase
        · refine ⟨p, List.mem_cons_self _ _, ?_⟩
          rw [hcase]
          exact heq
        · obtain ⟨q, hq, hq2⟩ := ih hws' w hcase
          exact ⟨q, List.mem_cons_of_mem _ hq, hq2⟩

theorem detectGo_ok_pairwise {cfg : AmbiguityDetector} {tokens : List String}
    {posMap ents : List (String × String)} :
    ∀ {ps : List (ℕ × String)} {ws : List AmbiguousWord},
      detectGo cfg tokens posMap ents ps = Except.ok ws →
      ps.Pairwise (fun a b => a.1 < b.1) →
      ws.Pairwise (fun a b => a.position < b.position) := by
  intro ps
  induction ps with
  | nil =>
    intro ws h _
    simp only [detectGo] at h
    cases h
    exact List.Pairwise.nil
  | cons p rest ih =>
    intro ws h hps
    simp only [detectGo] at h
    split at h
    · cases h
    · exact ih h hps.of_cons
    · rename_i w0 heq
      split at h
      · cases h
      · rename_i ws' hws'
        cases h
        refine List.Pairwise.cons ?_ (ih hws' hps.of_cons)
        intro w' hw'
        obtain ⟨q, hq, hq2⟩ := detectGo_ok_mem hws' w' hw'
        have h1 : w0.position = p.1 := (processToken_fields heq).1
        have h2 : w'.position = q.1 := (processToken_fields hq2).1
        rw [h1, h2]
        exact (List.pairwise_cons.mp hps).1 q hq

theorem mem_enumFrom_facts {α : Type} :
    ∀ (ts : List α) (n : ℕ) (p : ℕ × α), p ∈ List.enumFrom n ts →
      n ≤ p.1 ∧ ts.get? (p.1 - n) = some p.2 := by
  intro ts
  induction ts with
  | nil => intro n p hp; simp [List.enumFrom] at hp
  | cons t ts ih =>
    intro n p hp
    rw [List.enumFrom_cons] at hp
    rcases List.mem_cons.mp hp with h | h
    · rw [h]
      exact ⟨le_refl _, by simp⟩
    · obtain ⟨h1, h2⟩ := ih (n + 1) p h
      refine ⟨by omega, ?_⟩
      have hk : p.1 - n = (p.1 - (n + 1)) + 1 := by omega
      rw [hk, List.get?_cons_succ]
      exact h2

theorem enumFrom_pairwise_fst {α : Type} :
    ∀ (ts : List α) (n : ℕ),
      (List.enumFrom n ts).Pairwise (fun a b => a.1 < b.1) := by
  intro ts
  induction ts with
  | nil => intro n; simp [List.enumFrom]
  | cons t ts ih =>
    intro n
    rw [List.enumFrom_cons]
    refine List.Pairwise.cons ?_ (ih (n + 1))
    intro q hq
    have := (mem_enumFrom_facts ts (n + 1) q hq).1
    omega

/-! ## Recommender lemmas -/

theorem mem_insertDesc (m a : Meaning) :
    ∀ (l : List Meaning), a ∈ insertDesc m l ↔ a = m ∨ a ∈ l := by
  intro l
  induction l with
  | nil => simp [insertDesc]
  | cons x xs ih =>
    by_cases hc : x.confidence > m.confidence
    · simp only [insertDesc, if_pos hc, List.mem_cons, ih]
      tauto
    · simp only [insertDesc, if_neg hc, List.mem_cons]

theorem insertDesc_perm (m : Meaning) :
    ∀ (l : List Meaning), (insertDesc m l).Perm (m :: l) := by
  intro l
  induction l with
  | nil => simp [insertDesc]
  | cons x xs ih =>
    by_cases hc : x.confidence > m.confidence
    · rw [insertDesc, if_pos hc]
      exact (ih.cons x).trans (List.Perm.swap m x xs)
    · rw [insertDesc, if_neg hc]

theorem insertDesc_sorted (m : Meaning) :
    ∀ (l : List Meaning),
      l.Pairwise (fun a b => b.confidence ≤ a.confidence) →
      (insertDesc m l).Pairwise (fun a b => b.confidence ≤ a.confidence) := by
  intro l
  induction l with
  | nil => intro _; simp [insertDesc]
  | cons x xs ih =>
    intro hs
    by_cases hc : x.confidence > m.confidence
    · rw [insertDesc, if_pos hc]
      refine List.Pairwise.cons ?_ (ih hs.of_cons)
      intro y hy
      rcases (mem_insertDesc m y xs).mp hy with h | h
      · rw [h]; exact le_of_lt hc
      · exact (List.pairwise_cons.mp hs).1 y h
    · rw [insertDesc, if_neg hc]
      push_neg at hc
      refine List.Pairwise.cons ?_ hs
      intro y hy
      rcases List.mem_cons.mp hy with h | h
      · rw [h]; exact hc
      · exact le_trans ((List.pairwise_cons.mp hs).1 y h) hc

theorem sortMeaningsDesc_perm :
    ∀ (l : List Meaning), (sortMeaningsDesc l).Perm l := by
  intro l
  induction l with
  | nil => simp [sortMeaningsDesc]
  | cons m ms ih =>
    rw [sortMeaningsDesc]
    exact (insertDesc_perm m (sortMeaningsDesc ms)).trans (ih.cons m)

theorem sortMeaningsDesc_sorted :
    ∀ (l : List Meaning),
      (sortMeaningsDesc l).Pairwise (fun a b => b.confidence ≤ a.confidence) := by
  intro l
  induction l with
  | nil => simp [sortMeaningsDesc]
  | cons m ms ih => exact insertDesc_sorted m (sortMeaningsDesc ms) ih

theorem sortMeaningsDesc_length (l : List Meaning) :
    (sortMeaningsDesc l).length = l.length :=
  (sortMeaningsDesc_perm l).length_eq

theorem get_recommendations_eq (words : List AmbiguousWord) :
    get_recommendations words =
      (words.filter (fun w => 2 ≤ w.potential_meanings.length)).map recommendationFor := by
  induction words with
  | nil => simp [get_recommendations]
  | cons w rest ih =>
    by_cases hlen : w.potential_meanings.length ≤ 1
    · have hf : ¬ (2 ≤ w.potential_meanings.length) := by omega
      rw [get_recommendations, if_pos hlen, ih, List.filter_cons]
      simp [hf]
    · have hf : 2 ≤ w.potential_meanings.length := by omega
      rw [get_recommendations, if_neg hlen, ih, List.filter_cons]
      simp [hf]

theorem mem_get_recommendations {words : List AmbiguousWord} {rec : Recommendation}
    (h : rec ∈ get_recommendations words) :
    ∃ w ∈ words, 2 ≤ w.potential_meanings.length ∧ rec = recommendationFor w := by
  rw [get_recommendations_eq] at h
  obtain ⟨w, hw, hrec⟩ := List.mem_map.mp h
  obtain ⟨hmem, hlen⟩ := List.mem_filter.mp hw
  exact ⟨w, hmem, by simpa using hlen, hrec.symm⟩

/-! ## Claim theorems -/

/-- C3: the statistics operation returns (0, 0, 0, 0) on the empty list,
(x, x, 0, 0) on a one-element list, and for every non-empty list returns
the maximum, the minimum, their difference, and the population standard
deviation (sum of squared deviations divided by n, not n - 1; the square
root itself is the abstract sqrtQ, required only to send 0 to 0). -/
theorem claim_C3_statistics (sqrtQ : ℚ → ℚ) (x : ℚ) (l : List ℚ)
    (h0 : sqrtQ 0 = 0) (hl : l ≠ []) :
    calculate_similarity_statistics sqrtQ [] = (0, 0, 0, 0) ∧
    calculate_similarity_statistics sqrtQ [x] = (x, x, 0, 0) ∧
    calculate_similarity_statistics sqrtQ l =
      (listMaxQ l, listMinQ l, listMaxQ l - listMinQ l, sqrtQ (popVarianceQ l)) := by
  refine ⟨rfl, ?_, stats_eq_spec sqrtQ l hl⟩
  have hvar : popVarianceQ [x] = 0 := by
    simp [popVarianceQ, meanQ]
  rw [stats_eq_spec sqrtQ [x] (by simp), hvar, h0]
  simp [listMaxQ, listMinQ]

theorem claim_C3_statistics_witness :
    calculate_similarity_statistics (fun q => q) [] = (0, 0, 0, 0) ∧
    calculate_similarity_statistics (fun q => q) [(3 : ℚ)] = (3, 3, 0, 0) ∧
    calculate_similarity_statistics (fun q => q) [1, 2] =
      (listMaxQ [1, 2], listMinQ [1, 2], listMaxQ [1, 2] - listMinQ [1, 2],
        (fun q => q) (popVarianceQ [1, 2])) :=
  claim_C3_statistics (fun q => q) 3 [1, 2] rfl (by simp)

/-- C4: for every similarity list of length at least 2 and every synset
count, the decision rule holds exactly when spread exceeds the
threshold, or dispersion exceeds the threshold, or the maximum is below
0.6 with more than 2 candidates, or there are more than 5 candidates and
spread exceeds 0.1; and the threshold field of a detector defaults to
0.15. -/
theorem claim_C4_decision_rule (sqrtQ : ℚ → ℚ) (t : ℚ) (sims : List ℚ) (n : ℕ)
    (h : 2 ≤ sims.length) :
    (is_ambiguous sqrtQ t sims n = true ↔
      (listMaxQ sims - listMinQ sims > t ∨
        sqrtQ (popVarianceQ sims) > t ∨
        (listMaxQ sims < 6/10 ∧ n > 2) ∨
        (n > 5 ∧ listMaxQ sims - listMinQ sims > 1/10))) ∧
    ∀ (sq : ℚ → ℚ) (em : String → Except Err (List ℚ)) (sf : String → List String)
      (si : String → Synset) (nr : String → List (String × String)),
      ({ sqrtQ := sq, embed := em, synsetsForWord := sf, synsetInfo := si,
         ner := nr } : AmbiguityDetector).similarity_threshold = 15/100 := by
  constructor
  · have hnil : sims ≠ [] := by
      intro hc
      rw [hc] at h
      simp at h
    have hlen : ¬ (sims.length ≤ 1) := by omega
    rw [is_ambiguous, if_neg hlen, stats_eq_spec sqrtQ sims hnil]
    by_cases hp : (listMaxQ sims - listMinQ sims > t ∨
        sqrtQ (popVarianceQ sims) > t ∨
        (listMaxQ sims < 6/10 ∧ n > 2) ∨
        (n > 5 ∧ listMaxQ sims - listMinQ sims > 1/10))
    · simp [hp]
    · simp [hp]
  · intro sq em sf si nr
    rfl

theorem claim_C4_decision_rule_witness :
    (is_ambiguous (fun q => q) (15/100) [0, 1/2] 2 = true ↔
      (listMaxQ [0, 1/2] - listMinQ [0, 1/2] > 15/100 ∨
        (fun q => q) (popVarianceQ [0, 1/2]) > 15/100 ∨
        (listMaxQ [0, 1/2] < 6/10 ∧ 2 > 2) ∨
        (2 > 5 ∧ listMaxQ [0, 1/2] - listMinQ [0, 1/2] > 1/10))) :=
  (claim_C4_decision_rule (fun q => q) (15/100) [0, 1/2] 2 (by simp)).1

/-- C6: sklearn cosine similarity fails with InvalidInput exactly on an
empty vector or mismatched dimensionality, and on every pair of
equal-length non-empty vectors whose norms are non-zero it returns the
standard cosine similarity, the dot product over the product of the
norms. -/
theorem claim_C6_cosine (sqrtQ : ℚ → ℚ) (a b : List ℚ)
    (hna : sqrtQ (dotQ a a) ≠ 0) (hnb : sqrtQ (dotQ b b) ≠ 0) :
    (∀ u v : List ℚ, u = [] ∨ v = [] ∨ u.length ≠ v.length →
      cosine_similarity_1 sqrtQ u v = Except.error Err.invalidInput) ∧
    (a ≠ [] → b ≠ [] → a.length = b.length →
      cosine_similarity_1 sqrtQ a b =
        Except.ok (dotQ a b / (sqrtQ (dotQ a a) * sqrtQ (dotQ b b)))) := by
  constructor
  · intro u v huv
    rcases huv with hu | hv | hlen
    · simp [cosine_similarity_1, hu]
    · simp [cosine_similarity_1, hv]
    · by_cases h0 : u.length = 0 ∨ v.length = 0
      · rcases h0 with h0 | h0
        · simp [cosine_similarity_1, List.length_eq_zero.mp h0]
        · simp [cosine_similarity_1, List.length_eq_zero.mp h0]
      · simp [cosine_similarity_1, h0, hlen]
  · intro ha hb hlen
    have h0 : ¬ (a.length = 0 ∨ b.length = 0) := by
      push_neg
      constructor
      · simpa [List.length_eq_zero] using ha
      · simpa [List.length_eq_zero] using hb
    have h1 : ¬ (a.length ≠ b.length) := fun hc => hc hlen
    rw [cosine_similarity_1, if_neg h0, if_neg h1]
    simp only [if_neg hna, if_neg hnb]

theorem claim_C6_cosine_witness :
    (∀ u v : List ℚ, u = [] ∨ v = [] ∨ u.length ≠ v.length →
      cosine_similarity_1 (fun q => q) u v = Except.error Err.invalidInput) ∧
    ([(1 : ℚ), 0] ≠ [] → [(0 : ℚ), 1] ≠ [] →
      ([(1 : ℚ), 0] : List ℚ).length = ([(0 : ℚ), 1] : List ℚ).length →
      cosine_similarity_1 (fun q => q) [1, 0] [0, 1] =
        Except.ok (dotQ [1, 0] [0, 1] /
          ((fun q => q) (dotQ [1, 0] [1, 0]) * (fun q => q) (dotQ [0, 1] [0, 1])))) :=
  claim_C6_cosine (fun q => q) [1, 0] [0, 1] (by norm_num [dotQ]) (by norm_num [dotQ])

/-- Everything we need about a word emitted by detect: the shape of its
meanings list, the length bookkeeping between similarities and synsets,
the best-meaning index, the ambiguity score, and the NER filter. -/
theorem detect_emitted_spec {cfg : AmbiguityDetector} {tokens : List String}
    {pos_tags : List (String × String)} {ws : List AmbiguousWord} {w : AmbiguousWord}
    (h : detectAmbiguities cfg tokens pos_tags = Except.ok ws) (hw : w ∈ ws) :
    ∃ (sims : List ℚ) (synsets : List Synset),
      is_named_entity w.word (cfg.ner (pyJoin " " tokens)) = false ∧
      w.potential_meanings = zipPadMeanings synsets sims ∧
      2 ≤ sims.length ∧ sims.length ≤ synsets.length ∧ 2 ≤ synsets.length ∧
      sims.length = countNonempty (synsets.map synsetDefText) ∧
      w.best_meaning =
        (zipPadMeanings synsets sims).get? (sims.indexOf (pyMax sims)) ∧
      w.ambiguity_score = listMaxQ sims - listMinQ sims := by
  rw [detectAmbiguities] at h
  obtain ⟨p, hp, hproc⟩ := detectGo_ok_mem h w hw
  obtain ⟨sims, hne, hsyn2, hsims2, hcnt, hw_eq⟩ := processToken_ok_some hproc
  have hword : w.word = p.2 := (processToken_fields hproc).2
  have hnil : sims ≠ [] := by
    intro hc
    rw [hc] at hsims2
    simp at hsims2
  refine ⟨sims, (cfg.synsetsForWord (lowerStr p.2)).map cfg.synsetInfo,
    ?_, ?_, hsims2, ?_, ?_, hcnt, ?_, ?_⟩
  · rw [hword]; exact hne
  · rw [hw_eq]
    show buildMeanings _ sims = _
    exact buildMeanings_eq_zipPad _ _
  · rw [hcnt]
    calc countNonempty ((((cfg.synsetsForWord (lowerStr p.2)).map cfg.synsetInfo)).map
          synsetDefText)
        ≤ ((((cfg.synsetsForWord (lowerStr p.2)).map cfg.synsetInfo)).map
          synsetDefText).length := countNonempty_le_length _
      _ = _ := by simp
  · simpa using hsyn2
  · rw [hw_eq]
    show (buildMeanings _ sims).get? _ = _
    rw [buildMeanings_eq_zipPad]
  · rw [hw_eq]
    show (calculate_similarity_statistics cfg.sqrtQ sims).2.2.1 = _
    rw [stats_eq_spec cfg.sqrtQ sims hnil]

/-- When every definition text is non-empty, every meaning got a real
similarity as its confidence: similarities and synsets have equal
length. -/
theorem aligned_of_nonempty_texts {synsets : List Synset} {sims : List ℚ}
    (hcnt : sims.length = countNonempty (synsets.map synsetDefText))
    (htext : ∀ m ∈ zipPadMeanings synsets sims, meaningDefText m ≠ "") :
    sims.length = synsets.length := by
  have hsyn_text : ∀ d ∈ synsets.map synsetDefText, d ≠ "" := by
    intro d hd
    obtain ⟨s, hs, rfl⟩ := List.mem_map.mp hd
    obtain ⟨m, hm, hdef, hsynm⟩ := zipPad_fields_mem synsets sims s hs
    have hm' := htext m hm
    have : meaningDefText m = synsetDefText s := by
      rw [meaningDefText, synsetDefText, hdef, hsynm]
    rw [this] at hm'
    exact hm'
  rw [hcnt, countNonempty_eq_length _ hsyn_text, List.length_map]

theorem pyMax_mem {sims : List ℚ} (hnil : sims ≠ []) : pyMax sims ∈ sims := by
  cases sims with
  | nil => exact absurd rfl hnil
  | cons s rest =>
    rw [pyMax_eq_listMaxQ]
    exact listMaxQ_mem _ (by simp)

theorem pyMax_eq_listMaxQ_of_ne {sims : List ℚ} (hnil : sims ≠ []) :
    pyMax sims = listMaxQ sims := by
  cases sims with
  | nil => exact absurd rfl hnil
  | cons s rest => exact pyMax_eq_listMaxQ s rest

/-- C1 (amended): every emitted ambiguous word has at least two
potential meanings and a best meaning drawn from them; whenever every
meaning has a non-empty definition text (definition, or joined synonyms
when the definition is empty), the best meaning's confidence is the
maximum confidence.  (Without that proviso the padded confidences 0.0 of
meanings with empty definition text can exceed every real similarity.) -/
theorem claim_C1_best_meaning (cfg : AmbiguityDetector) (tokens : List String)
    (pos_tags : List (String × String)) (ws : List AmbiguousWord) (w : AmbiguousWord)
    (h : detectAmbiguities cfg tokens pos_tags = Except.ok ws) (hw : w ∈ ws) :
    2 ≤ w.potential_meanings.length ∧
    (∃ m, w.best_meaning = some m ∧ m ∈ w.potential_meanings) ∧
    ((∀ m ∈ w.potential_meanings, meaningDefText m ≠ "") →
      ∃ m, w.best_meaning = some m ∧
        m.confidence = listMaxQ (w.potential_meanings.map Meaning.confidence)) := by
  obtain ⟨sims, synsets, hne, hpm, h2s, hle, h2syn, hcnt, hbest, hscore⟩ :=
    detect_emitted_spec h hw
  have hnil : sims ≠ [] := by
    intro hc
    rw [hc] at h2s
    simp at h2s
  have hmaxmem : pyMax sims ∈ sims := pyMax_mem hnil
  have hidx : sims.indexOf (pyMax sims) < sims.length :=
    List.indexOf_lt_length.mpr hmaxmem
  have hpm_len : w.potential_meanings.length = synsets.length := by
    rw [hpm, zipPad_length]
  have hidx2 : sims.indexOf (pyMax sims) < (zipPadMeanings synsets sims).length := by
    rw [zipPad_length]
    omega
  refine ⟨by omega, ?_, ?_⟩
  · refine ⟨(zipPadMeanings synsets sims).get ⟨sims.indexOf (pyMax sims), hidx2⟩,
      ?_, ?_⟩
    · rw [hbest]
      exact List.get?_eq_get hidx2
    · rw [hpm]
      exact List.get_mem _ _ _
  · intro htext
    rw [hpm] at htext
    have hlen_eq : sims.length = synsets.length := aligned_of_nonempty_texts hcnt htext
    have hconf : (zipPadMeanings synsets sims).map Meaning.confidence = sims :=
      zipPad_map_confidence synsets sims hlen_eq
    have hget : ((zipPadMeanings synsets sims).get? (sims.indexOf (pyMax sims))).map
        Meaning.confidence = sims.get? (sims.indexOf (pyMax sims)) :=
      zipPad_get?_confidence synsets sims _ hidx (le_of_eq hlen_eq)
    have hself : sims.get? (sims.indexOf (pyMax sims)) = some (pyMax sims) :=
      List.indexOf_get? hmaxmem
    cases hg : (zipPadMeanings synsets sims).get? (sims.indexOf (pyMax sims)) with
    | none =>
      rw [hg] at hget
      rw [hself] at hget
      simp at hget
    | some m =>
      refine ⟨m, by rw [hbest, hg], ?_⟩
      rw [hg, hself] at hget
      simp at hget
      rw [hget, hpm, hconf]
      exact pyMax_eq_listMaxQ_of_ne hnil

/-- C1 counterexample: in scenario A the third sense has empty
definition text, its meaning is padded with confidence 0, and every real
similarity is negative, so the emitted best meaning's confidence -1/2 is
not the maximum (0) over the potential meanings. -/
theorem claim_C1_counterexample :
    detectAmbiguities cfgA tokensA posTagsA = Except.ok [wordA] ∧
    wordA.best_meaning.map Meaning.confidence = some (-(1/2)) ∧
    listMaxQ (wordA.potential_meanings.map Meaning.confidence) = 0 ∧
    wordA.best_meaning.map Meaning.confidence ≠
      some (listMaxQ (wordA.potential_meanings.map Meaning.confidence)) := by
  have hmax : listMaxQ (wordA.potential_meanings.map Meaning.confidence) = 0 := by
    norm_num [wordA, listMaxQ, max_def]
  refine ⟨detectA_eval, rfl, hmax, ?_⟩
  rw [hmax]
  norm_num [wordA]

theorem claim_C1_best_meaning_witness :
    2 ≤ wordB.potential_meanings.length ∧
    (∃ m, wordB.best_meaning = some m ∧ m ∈ wordB.potential_meanings) ∧
    ((∀ m ∈ wordB.potential_meanings, meaningDefText m ≠ "") →
      ∃ m, wordB.best_meaning = some m ∧
        m.confidence = listMaxQ (wordB.potential_meanings.map Meaning.confidence)) :=
  claim_C1_best_meaning cfgB tokensA posTagsA [wordB] wordB detectB_eval
    (List.mem_singleton.mpr rfl)

/-- C2 (amended): for every emitted ambiguous word all of whose
potential meanings have a non-empty definition text, the ambiguity
score equals max minus min of the confidences.  (Without that proviso
the score is max minus min of the real similarities only, while padded
confidences 0.0 can widen the confidence range.) -/
theorem claim_C2_ambiguity_score (cfg : AmbiguityDetector) (tokens : List String)
    (pos_tags : List (String × String)) (ws : List AmbiguousWord) (w : AmbiguousWord)
    (h : detectAmbiguities cfg tokens pos_tags = Except.ok ws) (hw : w ∈ ws)
    (htext : ∀ m ∈ w.potential_meanings, meaningDefText m ≠ "") :
    w.ambiguity_score =
      listMaxQ (w.potential_meanings.map Meaning.confidence) -
        listMinQ (w.potential_meanings.map Meaning.confidence) := by
  obtain ⟨sims, synsets, hne, hpm, h2s, hle, h2syn, hcnt, hbest, hscore⟩ :=
    detect_emitted_spec h hw
  rw [hpm] at htext
  have hlen_eq : sims.length = synsets.length := aligned_of_nonempty_texts hcnt htext
  have hconf : (zipPadMeanings synsets sims).map Meaning.confidence = sims :=
    zipPad_map_confidence synsets sims hlen_eq
  rw [hscore, hpm, hconf]

/-- C2 counterexample: in scenario A the emitted score is the spread of
the real similarities, 1/2, while max minus min over the padded
confidences [-1, -1/2, 0] is 1. -/
theorem claim_C2_counterexample :
    detectAmbiguities cfgA tokensA posTagsA = Except.ok [wordA] ∧
    wordA.ambiguity_score = 1/2 ∧
    listMaxQ (wordA.potential_meanings.map Meaning.confidence) -
      listMinQ (wordA.potential_meanings.map Meaning.confidence) = 1 ∧
    wordA.ambiguity_score ≠
      listMaxQ (wordA.potential_meanings.map Meaning.confidence) -
        listMinQ (wordA.potential_meanings.map Meaning.confidence) := by
  have hmax : listMaxQ (wordA.potential_meanings.map Meaning.confidence) = 0 := by
    norm_num [wordA, listMaxQ, max_def]
  have hmin : listMinQ (wordA.potential_meanings.map Meaning.confidence) = -1 := by
    norm_num [wordA, listMinQ, min_def]
  refine ⟨detectA_eval, rfl, ?_, ?_⟩
  · rw [hmax, hmin]; norm_num
  · rw [hmax, hmin]
    show (1 : ℚ)/2 ≠ 0 - (-1)
    norm_num

theorem claim_C2_ambiguity_score_witness :
    wordB.ambiguity_score =
      listMaxQ (wordB.potential_meanings.map Meaning.confidence) -
        listMinQ (wordB.potential_meanings.map Meaning.confidence) :=
  claim_C2_ambiguity_score cfgB tokensA posTagsA [wordB] wordB detectB_eval
    (List.mem_singleton.mpr rfl)
    (by intro m hm; fin_cases hm <;> simp [meaningDefText, wordB])

/-- C5: a token whose lower-cased form equals the lower-cased text of a
named-entity span recognised on the joined sentence is never among the
words returned by detect. -/
theorem claim_C5_ner_filter (cfg : AmbiguityDetector) (tokens : List String)
    (pos_tags : List (String × String)) (ws : List AmbiguousWord) (w : AmbiguousWord)
    (ent : String × String)
    (h : detectAmbiguities cfg tokens pos_tags = Except.ok ws) (hw : w ∈ ws)
    (hent : ent ∈ cfg.ner (pyJoin " " tokens)) :
    lowerStr w.word ≠ lowerStr ent.1 := by
  obtain ⟨sims, synsets, hne, -, -, -, -, -, -, -⟩ := detect_emitted_spec h hw
  intro hcon
  rw [is_named_entity, List.any_eq_false] at hne
  exact hne ent hent (by simp [hcon])

theorem claim_C5_ner_filter_witness :
    lowerStr wordA.word ≠ lowerStr ("Ana", "PER").1 :=
  claim_C5_ner_filter cfgA tokensA posTagsA [wordA] wordA ("Ana", "PER")
    detectA_eval (List.mem_singleton.mpr rfl) (by decide)

/-- C10: the words returned by detect carry strictly increasing
positions (hence at most one word per token index), and each word field
is exactly the input token at its position. -/
theorem claim_C10_positions (cfg : AmbiguityDetector) (tokens : List String)
    (pos_tags : List (String × String)) (ws : List AmbiguousWord)
    (h : detectAmbiguities cfg tokens pos_tags = Except.ok ws) :
    ws.Pairwise (fun a b => a.position < b.position) ∧
    ∀ w ∈ ws, tokens.get? w.position = some w.word := by
  rw [detectAmbiguities] at h
  constructor
  · refine detectGo_ok_pairwise h ?_
    rw [List.enum]
    exact enumFrom_pairwise_fst tokens 0
  · intro w hw
    obtain ⟨p, hp, hproc⟩ := detectGo_ok_mem h w hw
    obtain ⟨hpos, hword⟩ := processToken_fields hproc
    rw [List.enum] at hp
    have hf := mem_enumFrom_facts tokens 0 p hp
    rw [hpos, hword]
    simpa using hf.2

theorem claim_C10_positions_witness :
    ([wordA] : List AmbiguousWord).Pairwise (fun a b => a.position < b.position) ∧
    ∀ w ∈ ([wordA] : List AmbiguousWord), tokensA.get? w.position = some w.word :=
  claim_C10_positions cfgA tokensA posTagsA [wordA] detectA_eval

/-- C7: contrary to the stated failure policy, detect_ambiguities has no
try/except around the embedding calls, so a provider failure while
embedding one token's definitions aborts the whole run: in scenario F
the first token's first definition raises EmbeddingFailed, and detect
returns that error instead of skipping the token and reporting the
second token's result. -/
theorem claim_C7_propagation :
    cfgF.embed "rd1" = Except.error Err.embeddingFailed ∧
    detectAmbiguities cfgF tokensF posTagsF = Except.error Err.embeddingFailed := by
  exact ⟨by decide, by decide⟩

/-- C8: recommend keeps exactly the words with at least two potential
meanings, and for each of them the options are one per kept meaning: the
top min(3, n) meanings by confidence, in descending confidence order,
drawn from the word's meanings, with every dropped meaning's confidence
at most every kept one's. -/
theorem claim_C8_recommendations (words : List AmbiguousWord) (w : AmbiguousWord)
    (_hw : 2 ≤ w.potential_meanings.length) :
    get_recommendations words =
      (words.filter (fun x => 2 ≤ x.potential_meanings.length)).map recommendationFor ∧
    (recommendationFor w).options.length = min 3 w.potential_meanings.length ∧
    (recommendationFor w).options =
      ((sortMeaningsDesc w.potential_meanings).take 3).map (build_option w.word) ∧
    ((sortMeaningsDesc w.potential_meanings).take 3).Pairwise
      (fun a b => b.confidence ≤ a.confidence) ∧
    List.Subperm ((sortMeaningsDesc w.potential_meanings).take 3)
      w.potential_meanings ∧
    ∀ m ∈ (sortMeaningsDesc w.potential_meanings).drop 3,
      ∀ m' ∈ (sortMeaningsDesc w.potential_meanings).take 3,
        m.confidence ≤ m'.confidence := by
  refine ⟨get_recommendations_eq words, ?_, rfl, ?_, ?_, ?_⟩
  · show (((sortMeaningsDesc w.potential_meanings).take 3).map
      (build_option w.word)).length = _
    rw [List.length_map, List.length_take, sortMeaningsDesc_length]
  · exact (sortMeaningsDesc_sorted w.potential_meanings).sublist
      (List.take_sublist 3 _)
  · exact ((List.take_sublist 3 _).subperm).trans
      (sortMeaningsDesc_perm w.potential_meanings).subperm
  · have hs := sortMeaningsDesc_sorted w.potential_meanings
    rw [← List.take_append_drop 3 (sortMeaningsDesc w.potential_meanings)] at hs
    have hcross := (List.pairwise_append.mp hs).2.2
    intro m hm m' hm'
    exact hcross m' hm' m hm

theorem claim_C8_recommendations_witness :
    (recommendationFor wordMasa).options.length =
      min 3 wordMasa.potential_meanings.length :=
  (claim_C8_recommendations [wordMasa] wordMasa (by decide)).2.1

/-- C9 (amended): every option's synonym list is non-empty; it is either
exactly the fallback placeholder list (used when removing the word left
no synonyms) or a list in which no synonym case-insensitively equals the
word.  (The unqualified claim fails when the word itself equals the
placeholder text case-insensitively.) -/
theorem claim_C9_synonyms (words : List AmbiguousWord) (rec : Recommendation)
    (opt : RecommendationOption)
    (hrec : rec ∈ get_recommendations words) (hopt : opt ∈ rec.options) :
    opt.synonyms ≠ [] ∧
    (opt.synonyms = ["No direct synonyms available"] ∨
      ∀ s ∈ opt.synonyms, lowerStr s ≠ lowerStr rec.word) := by
  obtain ⟨w, -, -, rfl⟩ := mem_get_recommendations hrec
  have hword : (recommendationFor w).word = w.word := rfl
  rw [show (recommendationFor w).options =
      ((sortMeaningsDesc w.potential_meanings).take 3).map (build_option w.word)
    from rfl] at hopt
  obtain ⟨m, hm, rfl⟩ := List.mem_map.mp hopt
  rw [hword]
  by_cases hne : m.synonyms.filter (fun s => lowerStr s ≠ lowerStr w.word) = []
  · constructor
    · show (if _ ≠ ([] : List String) then _ else ["No direct synonyms available"]) ≠ []
      rw [if_neg (by simpa using hne)]
      simp
    · left
      show (if _ ≠ ([] : List String) then _ else ["No direct synonyms available"]) = _
      rw [if_neg (by simpa using hne)]
  · constructor
    · show (if _ ≠ ([] : List String) then _ else ["No direct synonyms available"]) ≠ []
      rw [if_pos hne]
      exact hne
    · right
      intro s hs
      rw [show (build_option w.word m).synonyms =
          (if m.synonyms.filter (fun s => lowerStr s ≠ lowerStr w.word) ≠ [] then
            m.synonyms.filter (fun s => lowerStr s ≠ lowerStr w.word)
          else ["No direct synonyms available"]) from rfl, if_pos hne] at hs
      have := (List.mem_filter.mp hs).2
      simpa using this

/-- C9 counterexample: an ambiguous word whose text equals the fallback
placeholder: all its synonyms are filtered out, so the placeholder list
is used, and that placeholder case-insensitively equals the word. -/
theorem claim_C9_counterexample :
    (get_recommendations [pathoWord]).any
      (fun rec => rec.options.any (fun opt => opt.synonyms.any
        (fun s => lowerStr s == lowerStr rec.word))) = true := by decide

theorem claim_C9_synonyms_witness :
    ({ meaning := "mobilă", synonyms := ["birou"] } : RecommendationOption).synonyms ≠ [] ∧
    (({ meaning := "mobilă", synonyms := ["birou"] } : RecommendationOption).synonyms =
        ["No direct synonyms available"] ∨
      ∀ s ∈ ({ meaning := "mobilă", synonyms := ["birou"] } :
          RecommendationOption).synonyms,
        lowerStr s ≠ lowerStr (recommendationFor wordMasa).word) :=
  claim_C9_synonyms [wordMasa] (recommendationFor wordMasa)
    { meaning := "mobilă", synonyms := ["birou"] }
    (by rw [get_recommendations_eq]; decide) (by decide)
